import Mathlib

/-!
# Verification of the `eones` date/time library core

Shallow embedding of the core of the `eones` Python library
(`src/eones/core/{date,delta,delta_calendar,delta_duration,parser,range}.py`)
and proofs about it.

Conventions of the embedding:
* Python `datetime` objects are embedded as the structure `Dt` of integer
  wall-clock fields plus the timezone identity string (`Date._zone.key`).
  All datetimes handled by a single operation share one fixed-offset zone,
  so chronological comparison of the embedded values is comparison of
  `toMicros` (microseconds on a proleptic-Gregorian axis).
* Python `//` and `%` are floor division / floor modulus.  All divisors in
  the source are positive, where Lean's `Int.ediv`/`Int.emod` (the `/` and
  `%` notations) agree with floor semantics, so `/` and `%` are used.
* Years are modelled on the full proleptic Gregorian calendar (no
  `MINYEAR`/`MAXYEAR` representation bound).
* Fallible code paths return `Option`/`Except`.
-/

/-- Embedded `datetime`: wall-clock fields plus the zone key string. -/
structure Dt where
  year : Int
  month : Int
  day : Int
  hour : Int
  minute : Int
  second : Int
  microsecond : Int
  tz : String
deriving DecidableEq, Repr

/-- `calendar.isleap` / `Date.is_leap_year`: divisible by 4 and not by 100
unless by 400. -/
def isLeap (y : Int) : Bool :=
  y % 4 == 0 && (y % 100 != 0 || y % 400 == 0)

/-- `calendar.monthrange(y, m)[1]`: number of days of month `m` of year `y`
(for `m` outside 1..12 the Python call raises; we return 0 there). -/
def daysInMonth (y m : Int) : Int :=
  if m = 1 then 31
  else if m = 2 then (if isLeap y then 29 else 28)
  else if m = 3 then 31
  else if m = 4 then 30
  else if m = 5 then 31
  else if m = 6 then 30
  else if m = 7 then 31
  else if m = 8 then 31
  else if m = 9 then 30
  else if m = 10 then 31
  else if m = 11 then 30
  else if m = 12 then 31
  else 0

/-- Validity of the embedded datetime fields: what CPython's `datetime`
constructor enforces (month, day and time-of-day ranges; the year bound of
CPython is not modelled, see module docstring). -/
def ValidDt (d : Dt) : Prop :=
  1 ≤ d.month ∧ d.month ≤ 12 ∧
  1 ≤ d.day ∧ d.day ≤ daysInMonth d.year d.month ∧
  0 ≤ d.hour ∧ d.hour ≤ 23 ∧
  0 ≤ d.minute ∧ d.minute ≤ 59 ∧
  0 ≤ d.second ∧ d.second ≤ 59 ∧
  0 ≤ d.microsecond ∧ d.microsecond ≤ 999999

instance (d : Dt) : Decidable (ValidDt d) := by
  unfold ValidDt; infer_instance

/-- Absolute month index `year*12 + month - 1` used by
`DeltaCalendar.apply`. -/
def monthIndex (d : Dt) : Int := d.year * 12 + d.month - 1

/-- Days before January 1st of year `y` on the proleptic Gregorian axis
(CPython `datetime._days_before_year`). -/
def daysBeforeYear (y : Int) : Int :=
  365 * (y - 1) + (y - 1) / 4 - (y - 1) / 100 + (y - 1) / 400

/-- Days in year `y` before the first of month `m`
(CPython `datetime._days_before_month`). -/
def daysBeforeMonth (y m : Int) : Int :=
  (if m = 1 then 0
   else if m = 2 then 31
   else if m = 3 then 59
   else if m = 4 then 90
   else if m = 5 then 120
   else if m = 6 then 151
   else if m = 7 then 181
   else if m = 8 then 212
   else if m = 9 then 243
   else if m = 10 then 273
   else if m = 11 then 304
   else if m = 12 then 334
   else 0)
  + (if 2 < m ∧ isLeap y then 1 else 0)

/-- `datetime.toordinal()`: proleptic Gregorian ordinal, day 1 is
0001-01-01. -/
def toOrdinal (d : Dt) : Int :=
  daysBeforeYear d.year + daysBeforeMonth d.year d.month + d.day

/-- Microseconds per day. -/
def usPerDay : Int := 86400000000

/-- Microseconds since midnight of the time-of-day fields. -/
def usOfDay (d : Dt) : Int :=
  ((d.hour * 60 + d.minute) * 60 + d.second) * 1000000 + d.microsecond

/-- Position of the datetime on the absolute microsecond axis; two
datetimes in the same fixed-offset zone compare chronologically as their
`toMicros` values, which is how Python compares `datetime`s. -/
def toMicros (d : Dt) : Int := toOrdinal d * usPerDay + usOfDay d

/-- `date.weekday()`: 0 = Monday .. 6 = Sunday
(CPython: `(toordinal() + 6) % 7`). -/
def pyWeekday (d : Dt) : Int := (toOrdinal d + 6) % 7

/-- Calendar successor of a day (the date one `timedelta(days=1)` later). -/
def nextDay (d : Dt) : Dt :=
  if d.day < daysInMonth d.year d.month then { d with day := d.day + 1 }
  else if d.month < 12 then { d with month := d.month + 1, day := 1 }
  else { d with year := d.year + 1, month := 1, day := 1 }

/-- Calendar predecessor of a day. -/
def prevDay (d : Dt) : Dt :=
  if 1 < d.day then { d with day := d.day - 1 }
  else if 1 < d.month then
    { d with month := d.month - 1, day := daysInMonth d.year (d.month - 1) }
  else { d with year := d.year - 1, month := 12, day := 31 }

/-- `d + timedelta(days=n)` for `n ≥ 0`. -/
def addDays (d : Dt) : Nat → Dt
  | 0 => d
  | n + 1 => nextDay (addDays d n)

/-- `d - timedelta(days=n)` for `n ≥ 0`. -/
def subDays (d : Dt) : Nat → Dt
  | 0 => d
  | n + 1 => prevDay (subDays d n)

/-- `d + timedelta(days=k)` for a signed `k`. -/
def shiftDays (d : Dt) (k : Int) : Dt :=
  if 0 ≤ k then addDays d k.toNat else subDays d (-k).toNat

/-- Overwrite the time-of-day fields from a microseconds-of-day value
(the normalization CPython performs after timedelta arithmetic). -/
def setTimeOfDay (d : Dt) (t : Int) : Dt :=
  { d with
    hour := t / 3600000000,
    minute := t % 3600000000 / 60000000,
    second := t % 60000000 / 1000000,
    microsecond := t % 1000000 }

/-- `d + timedelta(microseconds=t)`: wall-clock timedelta addition as
CPython normalizes it (carry whole days, renormalize the time of day). -/
def addMicros (d : Dt) (t : Int) : Dt :=
  let tot := usOfDay d + t
  setTimeOfDay (shiftDays d (tot / usPerDay)) (tot % usPerDay)

/-! ## DeltaCalendar (`core/delta_calendar.py`) -/

/-- `DeltaCalendar`: the `_input` pair as given to the constructor plus the
normalized `years`/`months` attributes. -/
structure DeltaCalendar where
  inputYears : Int
  inputMonths : Int
  years : Int
  months : Int
deriving DecidableEq, Repr

namespace DeltaCalendar

/-- `DeltaCalendar.__init__`: keeps the raw input and normalizes via
`total = years*12 + months`, `years = total // 12`, `months = total % 12`. -/
def make (years months : Int) : DeltaCalendar :=
  let total := years * 12 + months
  { inputYears := years, inputMonths := months,
    years := total / 12, months := total % 12 }

/-- `DeltaCalendar.apply`: shift the absolute month index, clamp the day to
the target month's length, keep the time of day. -/
def apply (dc : DeltaCalendar) (d : Dt) : Dt :=
  let total := d.year * 12 + d.month - 1 + (dc.years * 12 + dc.months)
  let newYear := total / 12
  let newMonth := total % 12 + 1
  let newDay := min d.day (daysInMonth newYear newMonth)
  { d with year := newYear, month := newMonth, day := newDay }

/-- `DeltaCalendar.invert`: rebuild from the negated raw input. -/
def invert (dc : DeltaCalendar) : DeltaCalendar :=
  make (-dc.inputYears) (-dc.inputMonths)

/-- `DeltaCalendar.scale`: rebuild from the scaled raw input. -/
def scale (dc : DeltaCalendar) (factor : Int) : DeltaCalendar :=
  make (dc.inputYears * factor) (dc.inputMonths * factor)

/-- `DeltaCalendar.is_zero`: both normalized components vanish. -/
def isZero (dc : DeltaCalendar) : Bool :=
  dc.years == 0 && dc.months == 0

end DeltaCalendar

/-- The days-in-month table only produces values between 28 and 31 for real
months. -/
theorem daysInMonth_bounds (y m : Int) (h1 : 1 ≤ m) (h2 : m ≤ 12) :
    28 ≤ daysInMonth y m ∧ daysInMonth y m ≤ 31 := by
  interval_cases m <;> (simp only [daysInMonth]; norm_num) <;>
    split_ifs <;> omega

/-- C1: applying a `DeltaCalendar` shifts the absolute month index by the
delta's total months, clamps the day to the target month, leaves the time
of day and the zone untouched, and always produces a valid calendar date;
in particular Jan 31 2024 + 1 month = Feb 29 2024 and
Jan 31 2025 + 1 month = Feb 28 2025. -/
theorem deltaCalendar_apply_correct (ys ms : Int) (d : Dt) (hv : ValidDt d) :
    (monthIndex ((DeltaCalendar.make ys ms).apply d) =
        monthIndex d + (ys * 12 + ms)) ∧
    ((DeltaCalendar.make ys ms).apply d).day =
      min d.day
        (daysInMonth ((DeltaCalendar.make ys ms).apply d).year
          ((DeltaCalendar.make ys ms).apply d).month) ∧
    ((DeltaCalendar.make ys ms).apply d).hour = d.hour ∧
    ((DeltaCalendar.make ys ms).apply d).minute = d.minute ∧
    ((DeltaCalendar.make ys ms).apply d).second = d.second ∧
    ((DeltaCalendar.make ys ms).apply d).microsecond = d.microsecond ∧
    ((DeltaCalendar.make ys ms).apply d).tz = d.tz ∧
    ValidDt ((DeltaCalendar.make ys ms).apply d) ∧
    (DeltaCalendar.make 0 1).apply ⟨2024, 1, 31, 0, 0, 0, 0, "UTC"⟩ =
      ⟨2024, 2, 29, 0, 0, 0, 0, "UTC"⟩ ∧
    (DeltaCalendar.make 0 1).apply ⟨2025, 1, 31, 0, 0, 0, 0, "UTC"⟩ =
      ⟨2025, 2, 28, 0, 0, 0, 0, "UTC"⟩ := by
  obtain ⟨y, mo, da, hh, mi, ss, us, tzs⟩ := d
  simp only [ValidDt] at hv
  simp only [DeltaCalendar.apply, DeltaCalendar.make, monthIndex, ValidDt]
  have hdim := daysInMonth_bounds
      ((y * 12 + mo - 1 + ((ys * 12 + ms) / 12 * 12 + (ys * 12 + ms) % 12)) / 12)
      ((y * 12 + mo - 1 + ((ys * 12 + ms) / 12 * 12 + (ys * 12 + ms) % 12)) % 12 + 1)
      (by omega) (by omega)
  refine ⟨by omega, trivial, trivial, trivial, trivial, trivial, trivial, ?_,
    by decide, by decide⟩
  simp only [min_def]
  split_ifs <;> omega

/-- Closed witness for `deltaCalendar_apply_correct`. -/
theorem deltaCalendar_apply_correct_witness :
    ValidDt ⟨2024, 1, 31, 12, 30, 15, 250000, "UTC"⟩ ∧
    monthIndex ((DeltaCalendar.make 0 1).apply
        ⟨2024, 1, 31, 12, 30, 15, 250000, "UTC"⟩) =
      monthIndex ⟨2024, 1, 31, 12, 30, 15, 250000, "UTC"⟩ + (0 * 12 + 1) :=
  ⟨by decide,
   (deltaCalendar_apply_correct 0 1 ⟨2024, 1, 31, 12, 30, 15, 250000, "UTC"⟩
      (by decide)).1⟩

/-- C2: the constructor normalizes via floor division of the total month
count: the stored pair satisfies `months ∈ [0,11]` and reconstructs the
input total; `years=1, months=14` gives `2y2mo`, total `-1` gives
`-1y 11mo`; `invert` and `scale` re-establish the normalized form. -/
theorem deltaCalendar_normalization (ys ms k : Int) :
    ((DeltaCalendar.make ys ms).years = (ys * 12 + ms) / 12 ∧
     (DeltaCalendar.make ys ms).months = (ys * 12 + ms) % 12) ∧
    (0 ≤ (DeltaCalendar.make ys ms).months ∧
     (DeltaCalendar.make ys ms).months < 12) ∧
    (DeltaCalendar.make ys ms).years * 12 + (DeltaCalendar.make ys ms).months
      = ys * 12 + ms ∧
    ((DeltaCalendar.make 1 14).years = 2 ∧
     (DeltaCalendar.make 1 14).months = 2) ∧
    ((DeltaCalendar.make 0 (-1)).years = -1 ∧
     (DeltaCalendar.make 0 (-1)).months = 11) ∧
    (0 ≤ (DeltaCalendar.make ys ms).invert.months ∧
     (DeltaCalendar.make ys ms).invert.months < 12 ∧
     (DeltaCalendar.make ys ms).invert.years * 12 +
       (DeltaCalendar.make ys ms).invert.months = -(ys * 12 + ms)) ∧
    (0 ≤ ((DeltaCalendar.make ys ms).scale k).months ∧
     ((DeltaCalendar.make ys ms).scale k).months < 12 ∧
     ((DeltaCalendar.make ys ms).scale k).years * 12 +
       ((DeltaCalendar.make ys ms).scale k).months = k * (ys * 12 + ms)) := by
  refine ⟨⟨rfl, rfl⟩, ⟨?_, ?_⟩, ?_, by decide, by decide, ⟨?_, ?_, ?_⟩,
    ⟨?_, ?_, ?_⟩⟩ <;>
    simp only [DeltaCalendar.make, DeltaCalendar.invert, DeltaCalendar.scale]
  · omega
  · omega
  · omega
  · omega
  · omega
  · omega
  · omega
  · omega
  · have h : ys * k * 12 + ms * k = k * (ys * 12 + ms) := by ring
    omega

/-! ## Ordinal arithmetic lemmas -/

/-- Stepping one year adds 365 days, or 366 across a leap year. -/
theorem daysBeforeYear_succ (y : Int) :
    daysBeforeYear (y + 1) = daysBeforeYear y + 365 +
      (if isLeap y then 1 else 0) := by
  simp only [daysBeforeYear, isLeap]
  split_ifs with h
  · simp only [Bool.and_eq_true, Bool.or_eq_true, beq_iff_eq, bne_iff_ne,
      ne_eq] at h
    omega
  · simp only [Bool.and_eq_true, Bool.or_eq_true, beq_iff_eq, bne_iff_ne,
      ne_eq, not_and, not_or, not_not] at h
    omega

/-- The cumulative days-before-month table steps by the month length. -/
theorem daysBeforeMonth_succ (y m : Int) (h1 : 1 ≤ m) (h2 : m ≤ 11) :
    daysBeforeMonth y (m + 1) = daysBeforeMonth y m + daysInMonth y m := by
  interval_cases m <;>
    simp only [daysBeforeMonth, daysInMonth] <;> norm_num <;>
    split_ifs <;> omega

/-- The within-year day offset of a valid date is at most the year length. -/
theorem daysBeforeMonth_add_day_le (y m d : Int) (h1 : 1 ≤ m) (h2 : m ≤ 12)
    (h3 : d ≤ daysInMonth y m) :
    daysBeforeMonth y m + d ≤ 365 + (if isLeap y then 1 else 0) := by
  interval_cases m <;>
    simp only [daysBeforeMonth, daysInMonth] at * <;> norm_num at * <;>
    split_ifs at * <;> omega

/-- The days-before-month table is non-negative. -/
theorem daysBeforeMonth_nonneg (y m : Int) (h1 : 1 ≤ m) (h2 : m ≤ 12) :
    0 ≤ daysBeforeMonth y m := by
  interval_cases m <;> simp only [daysBeforeMonth] <;> norm_num <;>
    split_ifs <;> omega

/-- `daysBeforeYear` is monotone. -/
theorem daysBeforeYear_mono (a b : Int) (h : a ≤ b) :
    daysBeforeYear a ≤ daysBeforeYear b := by
  simp only [daysBeforeYear]
  omega

/-- The calendar successor has ordinal one greater. -/
theorem toOrdinal_nextDay (d : Dt) (hv : ValidDt d) :
    toOrdinal (nextDay d) = toOrdinal d + 1 := by
  obtain ⟨y, mo, da, hh, mi, ss, us, tzs⟩ := d
  simp only [ValidDt] at hv
  simp only [nextDay]
  split_ifs with h1 h2
  · simp only [toOrdinal]
    omega
  · have hs := daysBeforeMonth_succ y mo (by omega) (by omega)
    simp only [toOrdinal]
    omega
  · have hy := daysBeforeYear_succ y
    have hmo : mo = 12 := by omega
    subst hmo
    simp only [toOrdinal, daysBeforeMonth, daysInMonth] at *
    norm_num at *
    split_ifs at * <;> omega

/-- The calendar successor of a valid date is valid. -/
theorem validDt_nextDay (d : Dt) (hv : ValidDt d) : ValidDt (nextDay d) := by
  obtain ⟨y, mo, da, hh, mi, ss, us, tzs⟩ := d
  simp only [ValidDt] at hv
  simp only [nextDay]
  split_ifs with h1 h2
  · simp only [ValidDt]
    omega
  · have hb := daysInMonth_bounds y (mo + 1) (by omega) (by omega)
    simp only [ValidDt]
    omega
  · have hb : daysInMonth (y + 1) 1 = 31 := by simp [daysInMonth]
    simp only [ValidDt]
    omega

/-- The calendar predecessor has ordinal one less. -/
theorem toOrdinal_prevDay (d : Dt) (hv : ValidDt d) :
    toOrdinal (prevDay d) = toOrdinal d - 1 := by
  obtain ⟨y, mo, da, hh, mi, ss, us, tzs⟩ := d
  simp only [ValidDt] at hv
  simp only [prevDay]
  split_ifs with h1 h2
  · simp only [toOrdinal]
    omega
  · have hs := daysBeforeMonth_succ y (mo - 1) (by omega) (by omega)
    have hmo : mo - 1 + 1 = mo := by omega
    rw [hmo] at hs
    simp only [toOrdinal]
    omega
  · have hy := daysBeforeYear_succ (y - 1)
    have hmo : mo = 1 := by omega
    subst hmo
    have hy1 : y - 1 + 1 = y := by omega
    rw [hy1] at hy
    simp only [toOrdinal, daysBeforeMonth, daysInMonth] at *
    norm_num at *
    split_ifs at * <;> omega

/-- The calendar predecessor of a valid date is valid. -/
theorem validDt_prevDay (d : Dt) (hv : ValidDt d) : ValidDt (prevDay d) := by
  obtain ⟨y, mo, da, hh, mi, ss, us, tzs⟩ := d
  simp only [ValidDt] at hv
  simp only [prevDay]
  split_ifs with h1 h2
  · simp only [ValidDt]
    omega
  · have hb := daysInMonth_bounds y (mo - 1) (by omega) (by omega)
    simp only [ValidDt]
    omega
  · have hb : daysInMonth (y - 1) 12 = 31 := by simp [daysInMonth]
    simp only [ValidDt]
    omega

/-- Day stepping leaves the time of day and the zone untouched. -/
theorem nextDay_time_fields (d : Dt) :
    (nextDay d).hour = d.hour ∧ (nextDay d).minute = d.minute ∧
    (nextDay d).second = d.second ∧
    (nextDay d).microsecond = d.microsecond ∧ (nextDay d).tz = d.tz := by
  simp only [nextDay]
  split_ifs <;> exact ⟨rfl, rfl, rfl, rfl, rfl⟩

/-- Backward day stepping leaves the time of day and the zone untouched. -/
theorem prevDay_time_fields (d : Dt) :
    (prevDay d).hour = d.hour ∧ (prevDay d).minute = d.minute ∧
    (prevDay d).second = d.second ∧
    (prevDay d).microsecond = d.microsecond ∧ (prevDay d).tz = d.tz := by
  simp only [prevDay]
  split_ifs <;> exact ⟨rfl, rfl, rfl, rfl, rfl⟩

/-- `addDays` preserves validity. -/
theorem validDt_addDays (d : Dt) (hv : ValidDt d) (n : Nat) :
    ValidDt (addDays d n) := by
  induction n with
  | zero => exact hv
  | succ k ih => exact validDt_nextDay _ ih

/-- `addDays` shifts the ordinal by the day count. -/
theorem toOrdinal_addDays (d : Dt) (hv : ValidDt d) (n : Nat) :
    toOrdinal (addDays d n) = toOrdinal d + n := by
  induction n with
  | zero => simp [addDays]
  | succ k ih =>
      have := toOrdinal_nextDay (addDays d k) (validDt_addDays d hv k)
      simp only [addDays, this, ih]
      push_cast
      ring

/-- `addDays` keeps the time of day and zone. -/
theorem addDays_time_fields (d : Dt) (n : Nat) :
    (addDays d n).hour = d.hour ∧ (addDays d n).minute = d.minute ∧
    (addDays d n).second = d.second ∧
    (addDays d n).microsecond = d.microsecond ∧ (addDays d n).tz = d.tz := by
  induction n with
  | zero => exact ⟨rfl, rfl, rfl, rfl, rfl⟩
  | succ k ih =>
      have h := nextDay_time_fields (addDays d k)
      simp only [addDays]
      exact ⟨h.1.trans ih.1, h.2.1.trans ih.2.1, h.2.2.1.trans ih.2.2.1,
        h.2.2.2.1.trans ih.2.2.2.1, h.2.2.2.2.trans ih.2.2.2.2⟩

/-- `subDays` preserves validity. -/
theorem validDt_subDays (d : Dt) (hv : ValidDt d) (n : Nat) :
    ValidDt (subDays d n) := by
  induction n with
  | zero => exact hv
  | succ k ih => exact validDt_prevDay _ ih

/-- `subDays` shifts the ordinal down by the day count. -/
theorem toOrdinal_subDays (d : Dt) (hv : ValidDt d) (n : Nat) :
    toOrdinal (subDays d n) = toOrdinal d - n := by
  induction n with
  | zero => simp [subDays]
  | succ k ih =>
      have := toOrdinal_prevDay (subDays d k) (validDt_subDays d hv k)
      simp only [subDays, this, ih]
      push_cast
      ring

/-- `subDays` keeps the time of day and zone. -/
theorem subDays_time_fields (d : Dt) (n : Nat) :
    (subDays d n).hour = d.hour ∧ (subDays d n).minute = d.minute ∧
    (subDays d n).second = d.second ∧
    (subDays d n).microsecond = d.microsecond ∧ (subDays d n).tz = d.tz := by
  induction n with
  | zero => exact ⟨rfl, rfl, rfl, rfl, rfl⟩
  | succ k ih =>
      have h := prevDay_time_fields (subDays d k)
      simp only [subDays]
      exact ⟨h.1.trans ih.1, h.2.1.trans ih.2.1, h.2.2.1.trans ih.2.2.1,
        h.2.2.2.1.trans ih.2.2.2.1, h.2.2.2.2.trans ih.2.2.2.2⟩

/-- `usOfDay` of a valid datetime lies within one day. -/
theorem usOfDay_bounds (d : Dt) (hv : ValidDt d) :
    0 ≤ usOfDay d ∧ usOfDay d < usPerDay := by
  obtain ⟨-, -, -, -, hv⟩ := hv
  simp only [usOfDay, usPerDay]
  omega

/-! ## DeltaDuration (`core/delta_duration.py`) -/

/-- `DeltaDuration`: the filtered non-zero `_input` mapping plus the
collapsed `timedelta`, held in microseconds. -/
structure DeltaDuration where
  inputs : List (String × Int)
  totalMicroseconds : Int
deriving DecidableEq, Repr

namespace DeltaDuration

/-- `DeltaDuration.__init__`: drop zero fields from the input echo and
collapse everything into one elapsed quantity. -/
def make (weeks days hours minutes seconds : Int) : DeltaDuration :=
  { inputs := ([("weeks", weeks), ("days", days), ("hours", hours),
      ("minutes", minutes), ("seconds", seconds)]).filter
        (fun kv => kv.2 != 0),
    totalMicroseconds :=
      ((((weeks * 7 + days) * 24 + hours) * 60 + minutes) * 60 + seconds)
        * 1000000 }

/-- `DeltaDuration.apply`: plain timedelta addition. -/
def apply (dd : DeltaDuration) (d : Dt) : Dt :=
  addMicros d dd.totalMicroseconds

end DeltaDuration

/-! ## Delta (`core/delta.py`) -/

/-- `Delta`: compound delta; `inputs` echoes the constructor's non-zero
keyword arguments, `cal`/`dur` are the `_calendar`/`_duration` parts. -/
structure Delta where
  inputs : List (String × Int)
  cal : DeltaCalendar
  dur : DeltaDuration
deriving DecidableEq, Repr

namespace Delta

/-- `Delta.__init__` with all seven recognized keyword arguments. -/
def make (years months weeks days hours minutes seconds : Int) : Delta :=
  { inputs := ([("years", years), ("months", months), ("weeks", weeks),
      ("days", days), ("hours", hours), ("minutes", minutes),
      ("seconds", seconds)]).filter (fun kv => kv.2 != 0),
    cal := DeltaCalendar.make years months,
    dur := DeltaDuration.make weeks days hours minutes seconds }

/-- `Delta.apply` with both flags true: calendar part first, then the
duration part. -/
def apply (dl : Delta) (d : Dt) : Dt :=
  dl.dur.apply (dl.cal.apply d)

/-- `Delta.is_zero`: tests emptiness of the retained raw input, not the
normalized components. -/
def isZero (dl : Delta) : Bool :=
  dl.inputs.isEmpty

end Delta

/-- A zero-total calendar delta applied to a valid date is the identity. -/
theorem deltaCalendar_apply_zero_total (dc : DeltaCalendar) (d : Dt)
    (hv : ValidDt d) (hy : dc.years = 0) (hm : dc.months = 0) :
    dc.apply d = d := by
  obtain ⟨y, mo, da, hh, mi, ss, us, tzs⟩ := d
  simp only [ValidDt] at hv
  simp only [DeltaCalendar.apply, hy, hm, Dt.mk.injEq]
  refine ⟨by omega, by omega, ?_, trivial, trivial, trivial, trivial, trivial⟩
  have h1 : (y * 12 + mo - 1 + (0 * 12 + 0)) / 12 = y := by omega
  have h2 : (y * 12 + mo - 1 + (0 * 12 + 0)) % 12 + 1 = mo := by omega
  rw [h1, h2]
  simp only [min_def]
  split_ifs <;> omega

/-- Adding zero microseconds to a valid datetime is the identity. -/
theorem addMicros_zero (d : Dt) (hv : ValidDt d) : addMicros d 0 = d := by
  have hb := usOfDay_bounds d hv
  have h1 : (usOfDay d + 0) / usPerDay = 0 := by
    simp only [usPerDay] at *
    omega
  have h2 : (usOfDay d + 0) % usPerDay = usOfDay d := by
    simp only [usPerDay] at *
    omega
  simp only [addMicros, h1, h2, shiftDays, le_refl, if_pos, Int.toNat_zero,
    addDays]
  obtain ⟨y, mo, da, hh, mi, ss, us, tzs⟩ := d
  simp only [ValidDt] at hv
  simp only [usOfDay, setTimeOfDay, Dt.mk.injEq]
  refine ⟨trivial, trivial, trivial, by omega, by omega, by omega, by omega,
    trivial⟩

/-- C10: the compound delta built from `years=-1, months=12` acts as the
identity on every valid date (its normalized calendar part is zero and its
duration part is empty), yet `is_zero()` — computed from the retained
non-zero raw inputs — returns `False`. -/
theorem delta_identity_not_isZero (d : Dt) (hv : ValidDt d) :
    (Delta.make (-1) 12 0 0 0 0 0).apply d = d ∧
    (Delta.make (-1) 12 0 0 0 0 0).isZero = false ∧
    (Delta.make (-1) 12 0 0 0 0 0).cal.years = 0 ∧
    (Delta.make (-1) 12 0 0 0 0 0).cal.months = 0 ∧
    (Delta.make (-1) 12 0 0 0 0 0).dur.totalMicroseconds = 0 := by
  refine ⟨?_, by decide, by decide, by decide, by decide⟩
  show (Delta.make (-1) 12 0 0 0 0 0).dur.apply
      ((Delta.make (-1) 12 0 0 0 0 0).cal.apply d) = d
  have hcal : (Delta.make (-1) 12 0 0 0 0 0).cal.apply d = d :=
    deltaCalendar_apply_zero_total _ d hv (by decide) (by decide)
  rw [hcal]
  show addMicros d 0 = d
  exact addMicros_zero d hv

/-- Closed witness for `delta_identity_not_isZero`. -/
theorem delta_identity_not_isZero_witness :
    ValidDt ⟨2024, 5, 17, 8, 45, 30, 123456, "UTC"⟩ ∧
    (Delta.make (-1) 12 0 0 0 0 0).apply
        ⟨2024, 5, 17, 8, 45, 30, 123456, "UTC"⟩ =
      ⟨2024, 5, 17, 8, 45, 30, 123456, "UTC"⟩ :=
  ⟨by decide,
   (delta_identity_not_isZero ⟨2024, 5, 17, 8, 45, 30, 123456, "UTC"⟩
      (by decide)).1⟩

/-! ## Month spans and `Date.diff` (`core/date.py`) -/

/-- Cumulative month offsets grow by at least the month length. -/
theorem daysBeforeMonth_add_daysInMonth_le (y m1 m2 : Int) (h1 : 1 ≤ m1)
    (h2 : m1 < m2) (h3 : m2 ≤ 12) :
    daysBeforeMonth y m1 + daysInMonth y m1 ≤ daysBeforeMonth y m2 := by
  have h4 : m1 ≤ 11 := by omega
  interval_cases m1 <;> interval_cases m2 <;>
    simp only [daysBeforeMonth, daysInMonth] <;> norm_num <;>
    split_ifs <;> omega

/-- A strictly smaller absolute month index means a strictly smaller
ordinal, for valid dates. -/
theorem toOrdinal_lt_of_monthIndex_lt (a b : Dt) (hva : ValidDt a)
    (hvb : ValidDt b) (h : monthIndex a < monthIndex b) :
    toOrdinal a < toOrdinal b := by
  obtain ⟨ham1, ham2, had1, had2, -⟩ := hva
  obtain ⟨hbm1, hbm2, hbd1, hbd2, -⟩ := hvb
  have hcase : a.year < b.year ∨ (a.year = b.year ∧ a.month < b.month) := by
    simp only [monthIndex] at h
    omega
  rcases hcase with hy | ⟨hy, hm⟩
  · have h1 := daysBeforeMonth_add_day_le a.year a.month a.day ham1 ham2 had2
    have h2 := daysBeforeYear_succ a.year
    have h3 := daysBeforeYear_mono (a.year + 1) b.year (by omega)
    have h4 := daysBeforeMonth_nonneg b.year b.month hbm1 hbm2
    simp only [toOrdinal]
    omega
  · have h1 := daysBeforeMonth_add_daysInMonth_le a.year a.month b.month
      ham1 hm hbm2
    simp only [toOrdinal, hy] at *
    omega

/-- A strictly smaller ordinal means a strictly earlier instant, for valid
dates. -/
theorem toMicros_lt_of_toOrdinal_lt (a b : Dt) (hva : ValidDt a)
    (hvb : ValidDt b) (h : toOrdinal a < toOrdinal b) :
    toMicros a < toMicros b := by
  have h1 := usOfDay_bounds a hva
  have h2 := usOfDay_bounds b hvb
  simp only [toMicros, usPerDay] at *
  omega

/-- `Date.month_span_to`'s core formula on the (earlier, later) ordered
pair: whole-year months plus month difference, minus one when the later
day-of-month has not yet reached the earlier one. -/
def rawMonthSpan (d1 d2 : Dt) : Int :=
  12 * (d2.year - d1.year) + (d2.month - d1.month) -
    (if d2.day < d1.day then 1 else 0)

/-- `Date.month_span_to`: order the two instants, apply the formula, and
restore the sign. -/
def monthSpanTo (a b : Dt) : Int :=
  if toMicros b < toMicros a then -(rawMonthSpan b a) else rawMonthSpan a b

/-- `Date.diff(other, "months")`: absolute value of the month span. -/
def diffMonths (a b : Dt) : Int := |monthSpanTo a b|

/-- The claim's description of the month difference: order the two
instants as (earlier, later) and apply the full-months-elapsed formula. -/
def monthsBetweenSpec (a b : Dt) : Int :=
  if toMicros a ≤ toMicros b then rawMonthSpan a b else rawMonthSpan b a

/-- On the instant-ordered pair the month-span formula is non-negative. -/
theorem rawMonthSpan_nonneg (a b : Dt) (hva : ValidDt a) (hvb : ValidDt b)
    (h : toMicros a ≤ toMicros b) : 0 ≤ rawMonthSpan a b := by
  rcases lt_trichotomy (monthIndex a) (monthIndex b) with hlt | heq | hgt
  · simp only [monthIndex] at hlt
    simp only [rawMonthSpan]
    split_ifs <;> omega
  · have hym : a.year = b.year ∧ a.month = b.month := by
      obtain ⟨ham1, ham2, -⟩ := hva
      obtain ⟨hbm1, hbm2, -⟩ := hvb
      simp only [monthIndex] at heq
      omega
    have hday : a.day ≤ b.day := by
      have h1 := usOfDay_bounds a hva
      have h2 := usOfDay_bounds b hvb
      simp only [usPerDay] at h1 h2
      simp only [toMicros, toOrdinal, usPerDay, hym.1, hym.2] at h
      omega
    simp only [rawMonthSpan]
    split_ifs <;> omega
  · have h1 := toOrdinal_lt_of_monthIndex_lt b a hvb hva hgt
    have h2 := toMicros_lt_of_toOrdinal_lt b a hvb hva h1
    omega

/-- Equal instants of valid dates have equal calendar fields. -/
theorem ymd_eq_of_toMicros_eq (a b : Dt) (hva : ValidDt a) (hvb : ValidDt b)
    (h : toMicros a = toMicros b) :
    a.year = b.year ∧ a.month = b.month ∧ a.day = b.day := by
  have hidx : monthIndex a = monthIndex b := by
    rcases lt_trichotomy (monthIndex a) (monthIndex b) with hlt | heq | hgt
    · have := toMicros_lt_of_toOrdinal_lt a b hva hvb
        (toOrdinal_lt_of_monthIndex_lt a b hva hvb hlt)
      omega
    · exact heq
    · have := toMicros_lt_of_toOrdinal_lt b a hvb hva
        (toOrdinal_lt_of_monthIndex_lt b a hvb hva hgt)
      omega
  have hym : a.year = b.year ∧ a.month = b.month := by
    obtain ⟨ham1, ham2, -⟩ := hva
    obtain ⟨hbm1, hbm2, -⟩ := hvb
    simp only [monthIndex] at hidx
    omega
  have h1 := usOfDay_bounds a hva
  have h2 := usOfDay_bounds b hvb
  simp only [usPerDay] at h1 h2
  refine ⟨hym.1, hym.2, ?_⟩
  simp only [toMicros, toOrdinal, usPerDay, hym.1, hym.2] at h
  omega

/-- C5: `diff(a, b, "months")` equals the claim's ordered full-months
formula, is non-negative and symmetric; in particular
`diff(2024-01-31, 2024-02-28, "months") = 0`. -/
theorem diff_months_correct (a b : Dt) (hva : ValidDt a) (hvb : ValidDt b) :
    diffMonths a b = monthsBetweenSpec a b ∧
    0 ≤ diffMonths a b ∧
    diffMonths a b = diffMonths b a ∧
    diffMonths ⟨2024, 1, 31, 0, 0, 0, 0, "UTC"⟩
      ⟨2024, 2, 28, 0, 0, 0, 0, "UTC"⟩ = 0 := by
  rcases lt_trichotomy (toMicros a) (toMicros b) with hlt | heq | hgt
  · have hn := rawMonthSpan_nonneg a b hva hvb (le_of_lt hlt)
    have he1 : monthSpanTo a b = rawMonthSpan a b := by
      simp only [monthSpanTo]
      rw [if_neg (by omega)]
    have he2 : monthSpanTo b a = -(rawMonthSpan a b) := by
      simp only [monthSpanTo]
      rw [if_pos hlt]
    refine ⟨?_, ?_, ?_, by decide⟩
    · simp only [diffMonths, monthsBetweenSpec, he1, abs_of_nonneg hn]
      rw [if_pos (le_of_lt hlt)]
    · exact abs_nonneg _
    · simp only [diffMonths, he1, he2, abs_neg]
  · have hf := ymd_eq_of_toMicros_eq a b hva hvb heq
    have hz1 : rawMonthSpan a b = 0 := by
      simp only [rawMonthSpan, hf.1, hf.2.1, hf.2.2]
      split_ifs <;> omega
    have hz2 : rawMonthSpan b a = 0 := by
      simp only [rawMonthSpan, hf.1, hf.2.1, hf.2.2]
      split_ifs <;> omega
    have hm1 : monthSpanTo a b = 0 := by
      simp only [monthSpanTo]
      split_ifs <;> omega
    have hm2 : monthSpanTo b a = 0 := by
      simp only [monthSpanTo]
      split_ifs <;> omega
    have hs : monthsBetweenSpec a b = 0 := by
      simp only [monthsBetweenSpec]
      split_ifs <;> omega
    refine ⟨?_, ?_, ?_, by decide⟩
    · simp [diffMonths, hm1, hs]
    · simp [diffMonths, hm1]
    · simp [diffMonths, hm1, hm2]
  · have hn := rawMonthSpan_nonneg b a hvb hva (le_of_lt hgt)
    have he1 : monthSpanTo a b = -(rawMonthSpan b a) := by
      simp only [monthSpanTo]
      rw [if_pos hgt]
    have he2 : monthSpanTo b a = rawMonthSpan b a := by
      simp only [monthSpanTo]
      rw [if_neg (by omega)]
    refine ⟨?_, ?_, ?_, by decide⟩
    · simp only [diffMonths, monthsBetweenSpec, he1, abs_neg,
        abs_of_nonneg hn]
      rw [if_neg (by omega)]
    · exact abs_nonneg _
    · simp only [diffMonths, he1, he2, abs_neg]

/-- Closed witness for `diff_months_correct`. -/
theorem diff_months_correct_witness :
    ValidDt ⟨2024, 1, 31, 0, 0, 0, 0, "UTC"⟩ ∧
    ValidDt ⟨2024, 2, 28, 0, 0, 0, 0, "UTC"⟩ ∧
    diffMonths ⟨2024, 1, 31, 0, 0, 0, 0, "UTC"⟩
        ⟨2024, 2, 28, 0, 0, 0, 0, "UTC"⟩ =
      monthsBetweenSpec ⟨2024, 1, 31, 0, 0, 0, 0, "UTC"⟩
        ⟨2024, 2, 28, 0, 0, 0, 0, "UTC"⟩ :=
  ⟨by decide, by decide,
   (diff_months_correct ⟨2024, 1, 31, 0, 0, 0, 0, "UTC"⟩
      ⟨2024, 2, 28, 0, 0, 0, 0, "UTC"⟩ (by decide) (by decide)).1⟩

/-! ## Weekday navigation (`Date.next_weekday` / `Date.previous_weekday`) -/

/-- `addDays` keeps the microseconds-of-day. -/
theorem usOfDay_addDays (d : Dt) (n : Nat) :
    usOfDay (addDays d n) = usOfDay d := by
  have h := addDays_time_fields d n
  simp only [usOfDay, h.1, h.2.1, h.2.2.1, h.2.2.2.1]

/-- `subDays` keeps the microseconds-of-day. -/
theorem usOfDay_subDays (d : Dt) (n : Nat) :
    usOfDay (subDays d n) = usOfDay d := by
  have h := subDays_time_fields d n
  simp only [usOfDay, h.1, h.2.1, h.2.2.1, h.2.2.2.1]

/-- `addDays` advances the instant by whole days. -/
theorem toMicros_addDays (d : Dt) (hv : ValidDt d) (n : Nat) :
    toMicros (addDays d n) = toMicros d + n * usPerDay := by
  simp only [toMicros, toOrdinal_addDays d hv n, usOfDay_addDays]
  ring

/-- `subDays` recedes the instant by whole days. -/
theorem toMicros_subDays (d : Dt) (hv : ValidDt d) (n : Nat) :
    toMicros (subDays d n) = toMicros d - n * usPerDay := by
  simp only [toMicros, toOrdinal_subDays d hv n, usOfDay_subDays]
  ring

/-- `Date.next_weekday`: step forward `(target - current + 7) % 7` days,
or a full week when that is zero. -/
def nextWeekday (d : Dt) (weekday : Int) : Dt :=
  let currentWeekday := pyWeekday d
  let r := (weekday - currentWeekday + 7) % 7
  let daysAhead := if r = 0 then 7 else r
  addDays d daysAhead.toNat

/-- `Date.previous_weekday`: step backward `(current - target + 7) % 7`
days, or a full week when that is zero. -/
def previousWeekday (d : Dt) (weekday : Int) : Dt :=
  let currentWeekday := pyWeekday d
  let r := (currentWeekday - weekday + 7) % 7
  let daysBehind := if r = 0 then 7 else r
  subDays d daysBehind.toNat

/-- C7: `next_weekday(w)` lands strictly later on weekday `w`, moving by
`(w - current + 7) % 7` days (a full 7 when the weekdays already agree),
and `previous_weekday(w)` strictly earlier on weekday `w`, moving by
`(current - w + 7) % 7` days backward (a full 7 when they agree); the same
instant is never returned. -/
theorem weekday_navigation_correct (d : Dt) (w : Int) (hv : ValidDt d)
    (hw1 : 0 ≤ w) (hw2 : w ≤ 6) :
    (toMicros d < toMicros (nextWeekday d w) ∧
     pyWeekday (nextWeekday d w) = w ∧
     toMicros (nextWeekday d w) = toMicros d +
       (if (w - pyWeekday d + 7) % 7 = 0 then 7
        else (w - pyWeekday d + 7) % 7) * usPerDay ∧
     (pyWeekday d = w →
       toMicros (nextWeekday d w) = toMicros d + 7 * usPerDay)) ∧
    (toMicros (previousWeekday d w) < toMicros d ∧
     pyWeekday (previousWeekday d w) = w ∧
     toMicros (previousWeekday d w) = toMicros d -
       (if (pyWeekday d - w + 7) % 7 = 0 then 7
        else (pyWeekday d - w + 7) % 7) * usPerDay ∧
     (pyWeekday d = w →
       toMicros (previousWeekday d w) = toMicros d - 7 * usPerDay)) := by
  have hc : 0 ≤ pyWeekday d ∧ pyWeekday d < 7 := by
    simp only [pyWeekday]
    omega
  constructor
  · set r := (w - pyWeekday d + 7) % 7 with hr
    have hrb : 0 ≤ r ∧ r < 7 := by omega
    set da : Int := if r = 0 then 7 else r with hda
    have hdab : 1 ≤ da ∧ da ≤ 7 := by
      rw [hda]
      split_ifs <;> omega
    have hmic : toMicros (nextWeekday d w) = toMicros d + da * usPerDay := by
      simp only [nextWeekday, ← hr, ← hda]
      rw [toMicros_addDays d hv da.toNat, Int.toNat_of_nonneg (by omega)]
    have hord : toOrdinal (nextWeekday d w) = toOrdinal d + da := by
      simp only [nextWeekday, ← hr, ← hda]
      rw [toOrdinal_addDays d hv da.toNat, Int.toNat_of_nonneg (by omega)]
    refine ⟨?_, ?_, ?_, ?_⟩
    · rw [hmic]
      simp only [usPerDay]
      omega
    · have hgoal : (toOrdinal d + da + 6) % 7 = w := by
        by_cases h0 : r = 0
        · have hda7 : da = 7 := by rw [hda, if_pos h0]
          rw [hr] at h0
          rw [hda7]
          simp only [pyWeekday] at h0 ⊢
          omega
        · have hdar : da = r := by rw [hda, if_neg h0]
          rw [hr] at h0
          rw [hdar, hr]
          simp only [pyWeekday] at h0 ⊢
          omega
      simpa only [pyWeekday, hord] using hgoal
    · rw [hmic]
    · intro hcw
      rw [hmic, hda, hr, hcw]
      norm_num
  · set r := (pyWeekday d - w + 7) % 7 with hr
    have hrb : 0 ≤ r ∧ r < 7 := by omega
    set db : Int := if r = 0 then 7 else r with hdb
    have hdbb : 1 ≤ db ∧ db ≤ 7 := by
      rw [hdb]
      split_ifs <;> omega
    have hmic : toMicros (previousWeekday d w) =
        toMicros d - db * usPerDay := by
      simp only [previousWeekday, ← hr, ← hdb]
      rw [toMicros_subDays d hv db.toNat, Int.toNat_of_nonneg (by omega)]
    have hord : toOrdinal (previousWeekday d w) = toOrdinal d - db := by
      simp only [previousWeekday, ← hr, ← hdb]
      rw [toOrdinal_subDays d hv db.toNat, Int.toNat_of_nonneg (by omega)]
    refine ⟨?_, ?_, ?_, ?_⟩
    · rw [hmic]
      simp only [usPerDay]
      omega
    · have hgoal : (toOrdinal d - db + 6) % 7 = w := by
        by_cases h0 : r = 0
        · have hdb7 : db = 7 := by rw [hdb, if_pos h0]
          rw [hr] at h0
          rw [hdb7]
          simp only [pyWeekday] at h0 ⊢
          omega
        · have hdbr : db = r := by rw [hdb, if_neg h0]
          rw [hr] at h0
          rw [hdbr, hr]
          simp only [pyWeekday] at h0 ⊢
          omega
      simpa only [pyWeekday, hord] using hgoal
    · rw [hmic]
    · intro hcw
      rw [hmic, hdb, hr, hcw]
      norm_num

/-- Closed witness for `weekday_navigation_correct`. -/
theorem weekday_navigation_correct_witness :
    ValidDt ⟨2025, 6, 16, 9, 0, 0, 0, "UTC"⟩ ∧ (0 : Int) ≤ 0 ∧ (0 : Int) ≤ 6 ∧
    pyWeekday (nextWeekday ⟨2025, 6, 16, 9, 0, 0, 0, "UTC"⟩ 0) = 0 :=
  ⟨by decide, by decide, by decide,
   (weekday_navigation_correct ⟨2025, 6, 16, 9, 0, 0, 0, "UTC"⟩ 0 (by decide)
      (by decide) (by decide)).1.2.1⟩

/-! ## Range (`core/range.py`) -/

/-- `Range.day_range`: midnight to 23:59:59.999999 of the same day. -/
def dayRange (d : Dt) : Dt × Dt :=
  ({ d with hour := 0, minute := 0, second := 0, microsecond := 0 },
   { d with hour := 23, minute := 59, second := 59, microsecond := 999999 })

/-- `Range.month_range`: first of month to last day of month. -/
def monthRange (d : Dt) : Dt × Dt :=
  (⟨d.year, d.month, 1, 0, 0, 0, 0, d.tz⟩,
   ⟨d.year, d.month, daysInMonth d.year d.month, 23, 59, 59, 999999, d.tz⟩)

/-- `Range.year_range`: Jan 1 to Dec 31 of the same year. -/
def yearRange (d : Dt) : Dt × Dt :=
  (⟨d.year, 1, 1, 0, 0, 0, 0, d.tz⟩,
   ⟨d.year, 12, 31, 23, 59, 59, 999999, d.tz⟩)

/-- `Range.week_range`: anchor day (Monday or Sunday first) at midnight to
the sixth following day at 23:59:59.999999. -/
def weekRange (d : Dt) (firstDayOfWeek : Int) : Dt × Dt :=
  let daysFromStart :=
    if firstDayOfWeek = 0 then pyWeekday d else (pyWeekday d + 1) % 7
  let startDate := subDays d daysFromStart.toNat
  let endDate := addDays startDate 6
  let rangeStart : Dt :=
    { startDate with hour := 0, minute := 0, second := 0, microsecond := 0 }
  let rangeEnd : Dt :=
    { endDate with hour := 23, minute := 59, second := 59,
                   microsecond := 999999 }
  (rangeStart, rangeEnd)

/-- `Range.quarter_range`: first day of the quarter to the last day of its
third month. -/
def quarterRange (d : Dt) : Dt × Dt :=
  let quarter := (d.month - 1) / 3
  let startMonth := quarter * 3 + 1
  let endMonth := startMonth + 2
  (⟨d.year, startMonth, 1, 0, 0, 0, 0, d.tz⟩,
   ⟨d.year, endMonth, daysInMonth d.year endMonth, 23, 59, 59, 999999,
     d.tz⟩)

/-- `Range.custom_range`: apply each delta to the base date independently
and silently swap when out of order. -/
def customRange (d : Dt) (startDelta endDelta : Delta) : Dt × Dt :=
  let startDt := startDelta.apply d
  let endDt := endDelta.apply d
  if toMicros endDt < toMicros startDt then (endDt, startDt)
  else (startDt, endDt)

/-- C6: every range operation returns an ordered pair `start <= end`; for
`custom_range` the two deltas are applied independently and the results are
silently swapped when out of order, so the returned pair is always one of
the two orderings of the two applied instants. -/
theorem range_ordering (d : Dt) (hv : ValidDt d) (fdow : Int)
    (sd ed : Delta) :
    toMicros (dayRange d).1 ≤ toMicros (dayRange d).2 ∧
    toMicros (weekRange d fdow).1 ≤ toMicros (weekRange d fdow).2 ∧
    toMicros (monthRange d).1 ≤ toMicros (monthRange d).2 ∧
    toMicros (quarterRange d).1 ≤ toMicros (quarterRange d).2 ∧
    toMicros (yearRange d).1 ≤ toMicros (yearRange d).2 ∧
    toMicros (customRange d sd ed).1 ≤ toMicros (customRange d sd ed).2 ∧
    (customRange d sd ed = (sd.apply d, ed.apply d) ∨
     customRange d sd ed = (ed.apply d, sd.apply d)) := by
  obtain ⟨hm1, hm2, hd1, hd2, ht⟩ := hv
  have hvd : ValidDt d := ⟨hm1, hm2, hd1, hd2, ht⟩
  refine ⟨?_, ?_, ?_, ?_, ?_, ?_, ?_⟩
  · simp only [dayRange, toMicros, toOrdinal, usOfDay, usPerDay]
    omega
  · simp only [weekRange]
    set k := (if fdow = 0 then pyWeekday d else (pyWeekday d + 1) % 7).toNat
      with hk
    have hvs : ValidDt (subDays d k) := validDt_subDays d hvd k
    have hord : toOrdinal (addDays (subDays d k) 6) =
        toOrdinal (subDays d k) + 6 :=
      toOrdinal_addDays (subDays d k) hvs 6
    simp only [toMicros, toOrdinal, usOfDay, usPerDay] at *
    omega
  · have hb := daysInMonth_bounds d.year d.month hm1 hm2
    simp only [monthRange, toMicros, toOrdinal, usOfDay, usPerDay]
    omega
  · have hsm : 1 ≤ (d.month - 1) / 3 * 3 + 1 ∧
        (d.month - 1) / 3 * 3 + 1 + 2 ≤ 12 := by omega
    have hb1 := daysInMonth_bounds d.year ((d.month - 1) / 3 * 3 + 1)
      (by omega) (by omega)
    have hb2 := daysInMonth_bounds d.year ((d.month - 1) / 3 * 3 + 1 + 2)
      (by omega) (by omega)
    have hva : ValidDt ⟨d.year, (d.month - 1) / 3 * 3 + 1, 1, 0, 0, 0, 0,
        d.tz⟩ := by
      simp only [ValidDt]
      omega
    have hvb : ValidDt ⟨d.year, (d.month - 1) / 3 * 3 + 1 + 2,
        daysInMonth d.year ((d.month - 1) / 3 * 3 + 1 + 2), 23, 59, 59,
        999999, d.tz⟩ := by
      simp only [ValidDt]
      omega
    have hlt := toOrdinal_lt_of_monthIndex_lt _ _ hva hvb
      (by simp only [monthIndex]; omega)
    have := toMicros_lt_of_toOrdinal_lt _ _ hva hvb hlt
    simp only [quarterRange]
    omega
  · simp only [yearRange, toMicros, toOrdinal, usOfDay, usPerDay,
      daysBeforeMonth]
    norm_num
    split_ifs <;> omega
  · simp only [customRange]
    split_ifs with h <;> simp only [] <;> omega
  · simp only [customRange]
    split_ifs with h
    · right
      rfl
    · left
      rfl

/-- Closed witness for `range_ordering`. -/
theorem range_ordering_witness :
    ValidDt ⟨2025, 6, 15, 13, 45, 0, 0, "UTC"⟩ ∧
    toMicros (monthRange ⟨2025, 6, 15, 13, 45, 0, 0, "UTC"⟩).1 ≤
      toMicros (monthRange ⟨2025, 6, 15, 13, 45, 0, 0, "UTC"⟩).2 :=
  ⟨by decide,
   (range_ordering ⟨2025, 6, 15, 13, 45, 0, 0, "UTC"⟩ (by decide) 0
      (Delta.make 0 0 0 1 0 0 0) (Delta.make 0 0 0 0 0 0 0)).2.2.1⟩

/-! ## Floor / ceil and `end_of_*` (`core/date.py`) -/

/-- The unit enum of `Date.floor` / `Date.ceil`
(`Literal["year", "month", "week", "day", "hour", "minute", "second"]`). -/
inductive TimeUnit
  | year
  | month
  | week
  | day
  | hour
  | minute
  | second
deriving DecidableEq, Repr

/-- `Date.floor`: align to the start of the unit (for weeks, move back to
Monday first). -/
def floorUnit (d : Dt) : TimeUnit → Dt
  | .year =>
      { d with month := 1, day := 1, hour := 0, minute := 0, second := 0,
               microsecond := 0 }
  | .month =>
      { d with day := 1, hour := 0, minute := 0, second := 0,
               microsecond := 0 }
  | .week =>
      { subDays d (pyWeekday d).toNat with
          hour := 0, minute := 0, second := 0, microsecond := 0 }
  | .day =>
      { d with hour := 0, minute := 0, second := 0, microsecond := 0 }
  | .hour => { d with minute := 0, second := 0, microsecond := 0 }
  | .minute => { d with second := 0, microsecond := 0 }
  | .second => { d with microsecond := 0 }

/-- `Date.ceil`: floor to the unit, then advance to its last instant. -/
def ceilUnit (d : Dt) (u : TimeUnit) : Dt :=
  let floored := floorUnit d u
  match u with
  | .year =>
      { floored with month := 12, day := 31, hour := 23, minute := 59,
                     second := 59, microsecond := 999999 }
  | .month =>
      { floored with day := daysInMonth floored.year floored.month,
                     hour := 23, minute := 59, second := 59,
                     microsecond := 999999 }
  | .week =>
      { addDays floored 6 with
          hour := 23, minute := 59, second := 59, microsecond := 999999 }
  | .day =>
      { floored with hour := 23, minute := 59, second := 59,
                     microsecond := 999999 }
  | .hour =>
      { floored with minute := 59, second := 59, microsecond := 999999 }
  | .minute => { floored with second := 59, microsecond := 999999 }
  | .second => { floored with microsecond := 999999 }

/-- `Date.end_of_month`: first instant of the next month minus one
microsecond. -/
def endOfMonth (d : Dt) : Dt :=
  let nextMonth : Dt :=
    if d.month = 12 then ⟨d.year + 1, 1, 1, 0, 0, 0, 0, d.tz⟩
    else ⟨d.year, d.month + 1, 1, 0, 0, 0, 0, d.tz⟩
  addMicros nextMonth (-1)

/-- `Date.end_of_year`: first instant of the next year minus one
microsecond. -/
def endOfYear (d : Dt) : Dt :=
  addMicros ⟨d.year + 1, 1, 1, 0, 0, 0, 0, d.tz⟩ (-1)

/-- Subtracting one microsecond from a midnight instant lands on the
previous day at 23:59:59.999999. -/
theorem addMicros_neg_one (x : Dt) (h1 : x.hour = 0) (h2 : x.minute = 0)
    (h3 : x.second = 0) (h4 : x.microsecond = 0) :
    addMicros x (-1) =
      { prevDay x with hour := 23, minute := 59, second := 59,
                       microsecond := 999999 } := by
  have husd : usOfDay x = 0 := by simp [usOfDay, h1, h2, h3, h4]
  have hq : (usOfDay x + -1) / usPerDay = -1 := by
    rw [husd]
    decide
  have hr : (usOfDay x + -1) % usPerDay = 86399999999 := by
    rw [husd]
    decide
  simp only [addMicros, hq, hr, shiftDays]
  rw [if_neg (by norm_num)]
  have hn : ((-(-1 : Int))).toNat = 1 := by decide
  rw [hn]
  show setTimeOfDay (prevDay (subDays x 0)) 86399999999 = _
  simp only [subDays, setTimeOfDay]
  norm_num

/-- C8: `end_of_month` — first instant of the next month minus one
microsecond — coincides with `ceil(d, "month")`, and `end_of_year` with
`ceil(d, "year")`, fields and zone alike. -/
theorem end_of_eq_ceil (d : Dt) (hv : ValidDt d) :
    endOfMonth d = ceilUnit d TimeUnit.month ∧
    endOfYear d = ceilUnit d TimeUnit.year := by
  obtain ⟨y, mo, da, hh, mi, ss, us, tzs⟩ := d
  simp only [ValidDt] at hv
  constructor
  · simp only [endOfMonth]
    by_cases h12 : mo = 12
    · subst h12
      rw [if_pos rfl, addMicros_neg_one _ rfl rfl rfl rfl]
      simp only [prevDay]
      rw [if_neg (by norm_num), if_neg (by norm_num)]
      simp only [ceilUnit, floorUnit, daysInMonth]
      norm_num
    · rw [if_neg (by simpa using h12), addMicros_neg_one _ rfl rfl rfl rfl]
      simp only [prevDay]
      rw [if_neg (by norm_num), if_pos (show (1 : Int) < mo + 1 by omega)]
      simp only [ceilUnit, floorUnit, Dt.mk.injEq]
      norm_num
  · simp only [endOfYear]
    rw [addMicros_neg_one _ rfl rfl rfl rfl]
    simp only [prevDay]
    rw [if_neg (by norm_num), if_neg (by norm_num)]
    simp only [ceilUnit, floorUnit, Dt.mk.injEq]
    norm_num

/-- Closed witness for `end_of_eq_ceil`. -/
theorem end_of_eq_ceil_witness :
    ValidDt ⟨2025, 6, 15, 13, 45, 0, 0, "UTC"⟩ ∧
    endOfMonth ⟨2025, 6, 15, 13, 45, 0, 0, "UTC"⟩ =
      ceilUnit ⟨2025, 6, 15, 13, 45, 0, 0, "UTC"⟩ TimeUnit.month :=
  ⟨by decide,
   (end_of_eq_ceil ⟨2025, 6, 15, 13, 45, 0, 0, "UTC"⟩ (by decide)).1⟩

/-! ## `Date.replace` and `Parser._from_dict` -/

/-- `constants.VALID_KEYS`: recognized calendar-field keys. -/
def VALID_KEYS : List String :=
  ["year", "month", "day", "hour", "minute", "second", "microsecond"]

/-- `datetime.replace(**fields)` field overwrite: each recognized key's
value, defaulting to the current field. -/
def dtReplaceFields (d : Dt) (fields : List (String × Int)) : Dt :=
  { year := (fields.lookup "year").getD d.year,
    month := (fields.lookup "month").getD d.month,
    day := (fields.lookup "day").getD d.day,
    hour := (fields.lookup "hour").getD d.hour,
    minute := (fields.lookup "minute").getD d.minute,
    second := (fields.lookup "second").getD d.second,
    microsecond := (fields.lookup "microsecond").getD d.microsecond,
    tz := d.tz }

/-- `datetime.replace` including CPython's field validation. -/
def dtReplace (d : Dt) (fields : List (String × Int)) : Option Dt :=
  let r := dtReplaceFields d fields
  if ValidDt r then some r else none

/-- `Date.replace`: keep only the recognized keys, then delegate to the
datetime-level replace. -/
def pyReplace (d : Dt) (fields : List (String × Int)) : Option Dt :=
  dtReplace d (fields.filter (fun kv => VALID_KEYS.contains kv.1))

/-- `Parser._from_dict`: reject any unrecognized key, then build the date
with now-defaults for year/month/day and zero-defaults for the clock
fields, validating the result. -/
def parserFromDict (now : Dt) (zone : String)
    (dateParts : List (String × Int)) : Except String Dt :=
  if dateParts.any (fun kv => !(VALID_KEYS.contains kv.1)) then
    Except.error "Invalid date part keys"
  else
    let r : Dt :=
      { year := (dateParts.lookup "year").getD now.year,
        month := (dateParts.lookup "month").getD now.month,
        day := (dateParts.lookup "day").getD now.day,
        hour := (dateParts.lookup "hour").getD 0,
        minute := (dateParts.lookup "minute").getD 0,
        second := (dateParts.lookup "second").getD 0,
        microsecond := (dateParts.lookup "microsecond").getD 0,
        tz := zone }
    if ValidDt r then Except.ok r else Except.error "invalid date fields"

/-- C9: `replace` with a mapping containing a key outside the recognized
set quietly drops it — the result is the same as with only the recognized
keys, and when every key is unrecognized (and the date valid) the date is
returned unchanged — whereas the parser's field-mapping path fails with an
error on the same mapping. -/
theorem replace_ignores_unknown_parser_rejects (d now : Dt) (zone : String)
    (fields : List (String × Int))
    (h : fields.any (fun kv => !(VALID_KEYS.contains kv.1)) = true) :
    pyReplace d fields =
      pyReplace d (fields.filter (fun kv => VALID_KEYS.contains kv.1)) ∧
    (ValidDt d → fields.all (fun kv => !(VALID_KEYS.contains kv.1)) = true →
      pyReplace d fields = some d) ∧
    parserFromDict now zone fields =
      Except.error "Invalid date part keys" := by
  refine ⟨?_, ?_, ?_⟩
  · simp only [pyReplace, List.filter_filter, Bool.and_self]
  · intro hv hall
    have hempty : fields.filter (fun kv => VALID_KEYS.contains kv.1)
        = [] := by
      rw [List.filter_eq_nil_iff]
      intro kv hkv
      have := List.all_eq_true.mp hall kv hkv
      simp only [Bool.not_eq_eq_eq_not, Bool.not_true] at this
      simpa using this
    have hid : dtReplaceFields d [] = d := by
      cases d
      simp [dtReplaceFields, List.lookup]
    simp only [pyReplace, hempty, dtReplace, hid, if_pos hv]
  · simp only [parserFromDict]
    rw [if_pos h]

/-- Closed witness for `replace_ignores_unknown_parser_rejects`. -/
theorem replace_ignores_unknown_parser_rejects_witness :
    ([("year", (2030 : Int)), ("banana", 1)].any
      (fun kv => !(VALID_KEYS.contains kv.1)) = true) ∧
    pyReplace ⟨2024, 1, 1, 0, 0, 0, 0, "UTC"⟩
        [("year", 2030), ("banana", 1)] =
      pyReplace ⟨2024, 1, 1, 0, 0, 0, 0, "UTC"⟩
        ([("year", (2030 : Int)), ("banana", 1)].filter
          (fun kv => VALID_KEYS.contains kv.1)) ∧
    parserFromDict ⟨2025, 6, 15, 0, 0, 0, 0, "UTC"⟩ "UTC"
        [("year", 2030), ("banana", 1)] =
      Except.error "Invalid date part keys" := by
  have h := replace_ignores_unknown_parser_rejects
    ⟨2024, 1, 1, 0, 0, 0, 0, "UTC"⟩ ⟨2025, 6, 15, 0, 0, 0, 0, "UTC"⟩ "UTC"
    [("year", 2030), ("banana", 1)] (by decide)
  exact ⟨by decide, h.1, h.2.2⟩

/-! ## ISO 8601 round trip (`Date.from_iso` / `Date.to_iso`)

`datetime.fromisoformat` (Python 3.11+, which the code targets) accepts a
date part in extended (`YYYY-MM-DD`) or basic (`YYYYMMDD`) form, an
optional time part with optional fractional seconds, and an optional
offset (`Z`, `±HH:MM`, ...).  `IsoText` is the denotation of such an
accepted text: the field values it carries plus whether the date part is
written in the hyphenated extended form.  `pyFromIso` embeds
`Date.from_iso` with its default `tz="UTC"`, including the UTC fast path
(`"Z" not in s and "+" not in s and s.count("-") <= 2`) that concatenates
`"+00:00"` — which on a basic-format date-only text consumes the `+` as
the date/time separator and `00:00` as a time, producing a NAIVE stored
datetime (`offsetSeconds = none`) through the constructor bypass.
`pyToIso` embeds `datetime.isoformat()`: extended form, full time fields,
and the offset only when the stored datetime is aware. -/

/-- One token of a `strptime` format string. -/
inductive FTok
  | lit (c : Char)
  | ws
  | dY
  | dm
  | dd
  | dH
  | dM
  | dS
  | df
  | dz
  | da
  | db
  | dB
deriving DecidableEq, Repr

/-- Fields collected while matching a format
(`_strptime`'s `found_dict`). -/
structure PF where
  year : Option Int
  month : Option Int
  day : Option Int
  hour : Option Int
  minute : Option Int
  second : Option Int
  microsecond : Option Int
  offSeconds : Option Int
  weekday : Option Int
deriving DecidableEq, Repr

/-- The empty field record. -/
def PF.empty : PF := ⟨none, none, none, none, none, none, none, none, none⟩

/-- Numeric value of a decimal digit character. -/
def digitVal (c : Char) : Int := (c.toNat : Int) - 48

/-- Match exactly `k` decimal digits, returning their value. -/
def matchDigitsAux : Nat → Int → List Char → Option (Int × List Char)
  | 0, acc, s => some (acc, s)
  | k + 1, acc, c :: s =>
      if c.isDigit then matchDigitsAux k (acc * 10 + digitVal c) s else none
  | _ + 1, _, [] => none

/-- Match exactly `k` decimal digits from the start of the text. -/
def matchDigits (k : Nat) (s : List Char) : Option (Int × List Char) :=
  matchDigitsAux k 0 s

/-- `%Y`: exactly four digits. -/
def candY (s : List Char) : List (Int × List Char) :=
  (matchDigits 4 s).toList

/-- `%d`: `3[01]|[12]\d|0[1-9]|[1-9]`, alternatives in regex order. -/
def candD : List Char → List (Int × List Char)
  | c1 :: c2 :: rest =>
      (if c1 = '3' ∧ (c2 = '0' ∨ c2 = '1') then [(30 + digitVal c2, rest)]
       else [])
      ++ (if (c1 = '1' ∨ c1 = '2') ∧ c2.isDigit then
            [(digitVal c1 * 10 + digitVal c2, rest)]
          else [])
      ++ (if c1 = '0' ∧ ('1' ≤ c2 ∧ c2 ≤ '9') then [(digitVal c2, rest)]
          else [])
      ++ (if '1' ≤ c1 ∧ c1 ≤ '9' then [(digitVal c1, c2 :: rest)] else [])
  | [c1] => if '1' ≤ c1 ∧ c1 ≤ '9' then [(digitVal c1, [])] else []
  | [] => []

/-- `%m`: `1[0-2]|0[1-9]|[1-9]`. -/
def candMo : List Char → List (Int × List Char)
  | c1 :: c2 :: rest =>
      (if c1 = '1' ∧ ('0' ≤ c2 ∧ c2 ≤ '2') then [(10 + digitVal c2, rest)]
       else [])
      ++ (if c1 = '0' ∧ ('1' ≤ c2 ∧ c2 ≤ '9') then [(digitVal c2, rest)]
          else [])
      ++ (if '1' ≤ c1 ∧ c1 ≤ '9' then [(digitVal c1, c2 :: rest)] else [])
  | [c1] => if '1' ≤ c1 ∧ c1 ≤ '9' then [(digitVal c1, [])] else []
  | [] => []

/-- `%H`: `2[0-3]|[0-1]\d|\d`. -/
def candH : List Char → List (Int × List Char)
  | c1 :: c2 :: rest =>
      (if c1 = '2' ∧ ('0' ≤ c2 ∧ c2 ≤ '3') then [(20 + digitVal c2, rest)]
       else [])
      ++ (if (c1 = '0' ∨ c1 = '1') ∧ c2.isDigit then
            [(digitVal c1 * 10 + digitVal c2, rest)]
          else [])
      ++ (if c1.isDigit then [(digitVal c1, c2 :: rest)] else [])
  | [c1] => if c1.isDigit then [(digitVal c1, [])] else []
  | [] => []

/-- `%M`: `[0-5]\d|\d`. -/
def candMi : List Char → List (Int × List Char)
  | c1 :: c2 :: rest =>
      (if ('0' ≤ c1 ∧ c1 ≤ '5') ∧ c2.isDigit then
        [(digitVal c1 * 10 + digitVal c2, rest)]
       else [])
      ++ (if c1.isDigit then [(digitVal c1, c2 :: rest)] else [])
  | [c1] => if c1.isDigit then [(digitVal c1, [])] else []
  | [] => []

/-- `%S`: `6[0-1]|[0-5]\d|\d` (leap seconds pass the regex; the datetime
constructor then rejects them). -/
def candS : List Char → List (Int × List Char)
  | c1 :: c2 :: rest =>
      (if c1 = '6' ∧ (c2 = '0' ∨ c2 = '1') then [(60 + digitVal c2, rest)]
       else [])
      ++ (if ('0' ≤ c1 ∧ c1 ≤ '5') ∧ c2.isDigit then
            [(digitVal c1 * 10 + digitVal c2, rest)]
          else [])
      ++ (if c1.isDigit then [(digitVal c1, c2 :: rest)] else [])
  | [c1] => if c1.isDigit then [(digitVal c1, [])] else []
  | [] => []

/-- `%f`: one to six digits, greedy (longest first), right-padded with
zeros to microseconds. -/
def candF (s : List Char) : List (Int × List Char) :=
  ([6, 5, 4, 3, 2, 1] : List Nat).filterMap (fun k =>
    (matchDigits k s).map (fun vr => (vr.1 * 10 ^ (6 - k), vr.2)))

/-- `[0-5]\d`: a two-digit value below 60. -/
def matchUnder60 : List Char → Option (Int × List Char)
  | c1 :: c2 :: rest =>
      if ('0' ≤ c1 ∧ c1 ≤ '5') ∧ c2.isDigit then
        some (digitVal c1 * 10 + digitVal c2, rest)
      else none
  | _ => none

/-- Offset tails after the sign of `%z`: `\d\d:?[0-5]\d(:?[0-5]\d)?`,
longest (with seconds) first, value in seconds. -/
def candZTail (s : List Char) : List (Int × List Char) :=
  match matchDigits 2 s with
  | none => []
  | some (hh, r1) =>
      let afterColon := match r1 with
        | ':' :: r2 => (matchUnder60 r2).toList
        | _ => []
      let noColon := (matchUnder60 r1).toList
      (afterColon ++ noColon).flatMap (fun mmr =>
        let (mm, r3) := mmr
        let base := hh * 3600 + mm * 60
        let secColon := match r3 with
          | ':' :: r4 => (matchUnder60 r4).toList
          | _ => []
        let secPlain := (matchUnder60 r3).toList
        ((secColon ++ secPlain).map (fun ssr =>
          (base + ssr.1, ssr.2))) ++ [(base, r3)])

/-- `%z`: a signed offset or the literal `Z`. -/
def candZ : List Char → List (Int × List Char)
  | c :: rest =>
      (if c = '+' ∨ c = '-' then
        (candZTail rest).map (fun vr =>
          ((if c = '-' then -vr.1 else vr.1), vr.2))
       else [])
      ++ (if c = 'Z' then [(0, rest)] else [])
  | [] => []

/-- Consume a name case-insensitively. -/
def matchNameCI : List Char → List Char → Option (List Char)
  | [], s => some s
  | _ :: _, [] => none
  | n :: ns, c :: cs =>
      if c.toLower = n.toLower then matchNameCI ns cs else none

/-- Try a list of (name, value) alternatives in order. -/
def candNames (names : List (List Char × Int)) (s : List Char) :
    List (Int × List Char) :=
  names.filterMap (fun nv => (matchNameCI nv.1 s).map (fun r => (nv.2, r)))

/-- `%b`: abbreviated month names (all length 3, locale order). -/
def monthAbbrs : List (List Char × Int) :=
  [("jan".toList, 1), ("feb".toList, 2), ("mar".toList, 3),
   ("apr".toList, 4), ("may".toList, 5), ("jun".toList, 6),
   ("jul".toList, 7), ("aug".toList, 8), ("sep".toList, 9),
   ("oct".toList, 10), ("nov".toList, 11), ("dec".toList, 12)]

/-- `%B`: full month names, sorted by length descending (stable). -/
def monthNames : List (List Char × Int) :=
  [("september".toList, 9), ("february".toList, 2),
   ("november".toList, 11), ("december".toList, 12),
   ("january".toList, 1), ("october".toList, 10), ("august".toList, 8),
   ("march".toList, 3), ("april".toList, 4), ("june".toList, 6),
   ("july".toList, 7), ("may".toList, 5)]

/-- `%a`: abbreviated weekday names. -/
def dayAbbrs : List (List Char × Int) :=
  [("mon".toList, 0), ("tue".toList, 1), ("wed".toList, 2),
   ("thu".toList, 3), ("fri".toList, 4), ("sat".toList, 5),
   ("sun".toList, 6)]

/-- Count of leading whitespace characters. -/
def leadingWs : List Char → Nat
  | c :: r => if c.isWhitespace then leadingWs r + 1 else 0
  | [] => 0

/-- `\s+` (a whitespace in the format): one or more whitespace characters,
greedy (longest first). -/
def candWs (s : List Char) : List (List Char) :=
  (List.range (leadingWs s)).map (fun i => s.drop (leadingWs s - i))

/-- Backtracking matcher for a token list against the text, building the
field record; requires the whole text to be consumed (`strptime` raises on
unconverted data). -/
def matchToks : List FTok → List Char → PF → Option PF
  | [], s, pf => if s.isEmpty then some pf else none
  | .lit c :: ts, s, pf =>
      match s with
      | x :: r => if x.toLower = c.toLower then matchToks ts r pf else none
      | [] => none
  | .ws :: ts, s, pf => (candWs s).findSome? (fun r => matchToks ts r pf)
  | .dY :: ts, s, pf =>
      (candY s).findSome? (fun vr =>
        matchToks ts vr.2 { pf with year := some vr.1 })
  | .dm :: ts, s, pf =>
      (candMo s).findSome? (fun vr =>
        matchToks ts vr.2 { pf with month := some vr.1 })
  | .dd :: ts, s, pf =>
      (candD s).findSome? (fun vr =>
        matchToks ts vr.2 { pf with day := some vr.1 })
  | .dH :: ts, s, pf =>
      (candH s).findSome? (fun vr =>
        matchToks ts vr.2 { pf with hour := some vr.1 })
  | .dM :: ts, s, pf =>
      (candMi s).findSome? (fun vr =>
        matchToks ts vr.2 { pf with minute := some vr.1 })
  | .dS :: ts, s, pf =>
      (candS s).findSome? (fun vr =>
        matchToks ts vr.2 { pf with second := some vr.1 })
  | .df :: ts, s, pf =>
      (candF s).findSome? (fun vr =>
        matchToks ts vr.2 { pf with microsecond := some vr.1 })
  | .dz :: ts, s, pf =>
      (candZ s).findSome? (fun vr =>
        matchToks ts vr.2 { pf with offSeconds := some vr.1 })
  | .da :: ts, s, pf =>
      (candNames dayAbbrs s).findSome? (fun vr =>
        matchToks ts vr.2 { pf with weekday := some vr.1 })
  | .db :: ts, s, pf =>
      (candNames monthAbbrs s).findSome? (fun vr =>
        matchToks ts vr.2 { pf with month := some vr.1 })
  | .dB :: ts, s, pf =>
      (candNames monthNames s).findSome? (fun vr =>
        matchToks ts vr.2 { pf with month := some vr.1 })

/-- Two-digit zero-padded rendering used in offset zone names. -/
def twoDigits (n : Int) : String :=
  if n < 10 then "0" ++ toString n else toString n

/-- `Date._format_offset_timezone_name` /
`from_timezone_aware_datetime`'s zone key for a fixed offset. -/
def offsetZoneName (secs : Int) : String :=
  if secs = 0 then "UTC"
  else
    let t := if secs < 0 then -secs else secs
    let sign := if 0 ≤ secs then "+" else "-"
    let hours := t / 3600
    let minutes := t % 3600 / 60
    if minutes = 0 then "UTC" ++ sign ++ twoDigits hours
    else "UTC" ++ sign ++ twoDigits hours ++ ":" ++ twoDigits minutes

/-- `datetime.strptime`'s value construction: 1900-01-01 midnight
defaults, then CPython's datetime constructor validation; the preserved
offset zone replaces the parser zone when `%z` matched
(`Date.from_timezone_aware_datetime`). -/
def buildDt (zone : String) (pf : PF) : Option Dt :=
  let d : Dt :=
    { year := pf.year.getD 1900,
      month := pf.month.getD 1,
      day := pf.day.getD 1,
      hour := pf.hour.getD 0,
      minute := pf.minute.getD 0,
      second := pf.second.getD 0,
      microsecond := pf.microsecond.getD 0,
      tz := match pf.offSeconds with
            | some s => offsetZoneName s
            | none => zone }
  if ValidDt d then some d else none

/-- The `Parser._from_str` fast-path shape test: at least ten characters,
hyphens at indices 4 and 7, four leading digits. -/
def isoShape (s : List Char) : Bool :=
  decide (10 ≤ s.length) &&
  (s.drop 4).headI == '-' && (s.drop 7).headI == '-' &&
  (s.take 4).all Char.isDigit

/-- `Date.from_iso` on the fast-path text shapes reachable from
`_from_str` (date, or date plus `T`/space-separated time with optional
fractional seconds, no offset suffix — texts with offsets make the
embedded fast path fall through to the format loop like a parse failure
would). -/
def fromIsoText (zone : String) (s : List Char) : Option Dt :=
  match matchDigits 4 s with
  | none => none
  | some (y, r1) =>
      match r1 with
      | '-' :: r2 =>
          match matchDigits 2 r2 with
          | none => none
          | some (mo, r3) =>
              match r3 with
              | '-' :: r4 =>
                  match matchDigits 2 r4 with
                  | none => none
                  | some (da, r5) =>
                      match r5 with
                      | [] =>
                          let d : Dt := ⟨y, mo, da, 0, 0, 0, 0, zone⟩
                          if ValidDt d then some d else none
                      | sep :: r6 =>
                          if sep = 'T' ∨ sep = ' ' then
                            match matchDigits 2 r6 with
                            | none => none
                            | some (hh, r7) =>
                                match r7 with
                                | ':' :: r8 =>
                                    match matchDigits 2 r8 with
                                    | none => none
                                    | some (mi, r9) =>
                                        match r9 with
                                        | [] =>
                                            let d : Dt :=
                                              ⟨y, mo, da, hh, mi, 0, 0,
                                                zone⟩
                                            if ValidDt d then some d
                                            else none
                                        | ':' :: r10 =>
                                            match matchDigits 2 r10 with
                                            | none => none
                                            | some (ss, r11) =>
                                                match r11 with
                                                | [] =>
                                                    let d : Dt :=
                                                      ⟨y, mo, da, hh, mi,
                                                        ss, 0, zone⟩
                                                    if ValidDt d then
                                                      some d
                                                    else none
                                                | '.' :: r12 =>
                                                    match candF r12 with
                                                    | (us, []) :: _ =>
                                                        let d : Dt :=
                                                          ⟨y, mo, da, hh,
                                                            mi, ss, us,
                                                            zone⟩
                                                        if ValidDt d then
                                                          some d
                                                        else none
                                                    | _ => none
                                                | _ => none
                                        | _ => none
                                | _ => none
                          else none
              | _ => none
      | _ => none

/-- `constants.DEFAULT_FORMATS`, one token list per format string. -/
def DEFAULT_FORMATS : List (List FTok) :=
  [[.dY, .lit '-', .dm, .lit '-', .dd],
   [.dd, .lit '/', .dm, .lit '/', .dY],
   [.dY, .lit '/', .dm, .lit '/', .dd],
   [.dd, .lit '-', .dm, .lit '-', .dY],
   [.dd, .lit '.', .dm, .lit '.', .dY],
   [.dY, .lit '-', .dm, .lit '-', .dd, .ws, .dH, .lit ':', .dM, .lit ':',
    .dS],
   [.dd, .lit '/', .dm, .lit '/', .dY, .ws, .dH, .lit ':', .dM, .lit ':',
    .dS],
   [.dY, .lit '-', .dm, .lit '-', .dd, .lit 'T', .dH, .lit ':', .dM,
    .lit ':', .dS],
   [.dY, .lit '-', .dm, .lit '-', .dd, .lit 'T', .dH, .lit ':', .dM],
   [.dY, .lit '-', .dm, .lit '-', .dd, .ws, .dH, .lit ':', .dM],
   [.dd, .ws, .db, .ws, .dY],
   [.dd, .ws, .dB, .ws, .dY],
   [.dY, .dm, .dd],
   [.dd, .dm, .dY],
   [.dY, .lit '-', .dm, .lit '-', .dd, .lit 'T', .dH, .lit ':', .dM,
    .lit ':', .dS, .lit '.', .df],
   [.dY, .lit '-', .dm, .lit '-', .dd, .lit 'T', .dH, .lit ':', .dM,
    .lit ':', .dS, .lit '.', .df, .lit 'Z'],
   [.dY, .lit '-', .dm, .lit '-', .dd, .lit 'T', .dH, .lit ':', .dM,
    .lit ':', .dS, .lit 'Z'],
   [.dY, .lit '-', .dm, .lit '-', .dd, .lit 'T', .dH, .lit ':', .dM,
    .lit ':', .dS, .dz],
   [.dY, .lit '-', .dm, .lit '-', .dd, .lit 'T', .dH, .lit ':', .dM,
    .lit ':', .dS, .lit '.', .df, .dz],
   [.da, .ws, .db, .ws, .dd, .ws, .dH, .lit ':', .dM, .lit ':', .dS, .ws,
    .dY]]

/-- The US month-first formats `Parser._from_str` promotes when
`day_first` is false: `%m/%d/%Y`, `%m-%d-%Y`, `%m.%d.%Y`. -/
def usFormats : List (List FTok) :=
  [[.dm, .lit '/', .dd, .lit '/', .dY],
   [.dm, .lit '-', .dd, .lit '-', .dY],
   [.dm, .lit '.', .dd, .lit '.', .dY]]

/-- The `day_first=False` adjustment: move each US format already present
in the candidate list to the front (iterating the US list reversed). -/
def reorderForDayFirst (dayFirst : Bool) (formats : List (List FTok)) :
    List (List FTok) :=
  if dayFirst then formats
  else
    usFormats.reverse.foldl
      (fun acc f => if acc.contains f then f :: acc.erase f else acc)
      formats

/-- The ordered-format trial loop of `Parser._from_str`. -/
def fromStrFormats (zone : String) (formats : List (List FTok))
    (dayFirst : Bool) (s : List Char) : Option Dt :=
  (reorderForDayFirst dayFirst formats).findSome? (fun fmt =>
    match matchToks fmt s PF.empty with
    | some pf => buildDt zone pf
    | none => none)

/-- `Parser._from_str`: ISO fast path when the text is ISO-shaped (falling
through to the format loop on failure), then the ordered format loop. -/
def fromStr (zone : String) (formats : List (List FTok)) (dayFirst : Bool)
    (s : List Char) : Option Dt :=
  if isoShape s then
    match fromIsoText zone s with
    | some d => some d
    | none => fromStrFormats zone formats dayFirst s
  else fromStrFormats zone formats dayFirst s

/-- C3 (code bug): with the default format list, `"01/02/2025"` parses to
February 1 2025 under the default day-first configuration, but ALSO under
`day_first=False` — the US-style reorder is a no-op because none of the
month-first patterns appears in `DEFAULT_FORMATS` — contradicting the
documented January 2 2025 expectation. -/
theorem parser_day_first_inert :
    fromStr "UTC" DEFAULT_FORMATS true "01/02/2025".toList =
      some ⟨2025, 2, 1, 0, 0, 0, 0, "UTC"⟩ ∧
    fromStr "UTC" DEFAULT_FORMATS false "01/02/2025".toList =
      some ⟨2025, 2, 1, 0, 0, 0, 0, "UTC"⟩ ∧
    fromStr "UTC" DEFAULT_FORMATS false "01/02/2025".toList ≠
      some ⟨2025, 1, 2, 0, 0, 0, 0, "UTC"⟩ ∧
    reorderForDayFirst false DEFAULT_FORMATS = DEFAULT_FORMATS := by
  refine ⟨by decide, by decide, by decide, by decide⟩
